import Mathlib

/-!
Verification of the audio-chunker job pipeline.

This file shallowly embeds the Go sources of the audio-chunker service:

* `internal/processor/processor.go` — the WAV duration inspector
  (`wavDuration`) and the pipeline runner (`Process`);
* `internal/model/job.go` — the `Job`/`Chunk`/`JobStatus` data model;
* `internal/storage/storage.go` — atomic save/load/list of job records;
* `cmd/server/main.go` — the lifecycle coordinator (`processJob`,
  `handleUpload`, `handleJobDelete`).

Modelling conventions:

* Byte streams are `List Nat`; multi-byte little-endian reads take each
  byte modulo 256, and `uint16`/`uint32` arithmetic is `Nat` arithmetic
  with an explicit `% 65536` / `% 4294967296` where Go wraps.
* Go `float64` values appearing here are exact integers below `2^53`
  (chunk sizes, sample rates) and their quotients; the division is
  modelled in `ℚ`.  Given finite non-negative operands of this size, an
  IEEE double division is non-finite exactly when the divisor is zero,
  which `floatDivQ` models by returning `none`.
* External processes and the file system are an oracle environment
  (`Env`): the combined output, exit status, glob result, and file
  contents observed by the pipeline are the oracle's data.  Calls into
  repository code (`wavDuration`) are real calls into the embedding.
* `io.ReadFull` succeeds exactly when enough bytes remain; every short
  read is modelled with the message "unexpected EOF".  `File.Seek` on a
  regular file cannot fail and may move past EOF, so skipping is plain
  cursor arithmetic.
-/

/-! ### WAV duration inspector (processor.go, `wavDuration`) -/

/-- Little-endian 16-bit decode of the first two bytes of a list
(`binary.LittleEndian.Uint16`). -/
def le16L : List Nat → Nat
  | b0 :: b1 :: _ => b0 % 256 + 256 * (b1 % 256)
  | _ => 0

/-- Little-endian 32-bit decode of the first four bytes of a list
(`binary.LittleEndian.Uint32`). -/
def le32L : List Nat → Nat
  | b0 :: b1 :: b2 :: b3 :: _ =>
      b0 % 256 + 256 * (b1 % 256) + 65536 * (b2 % 256) + 16777216 * (b3 % 256)
  | _ => 0

/-- The four format fields `wavDuration` accumulates while walking the
RIFF sub-chunks: `channels`, `sampleRate`, `bitsPerSample` from the
`"fmt "` chunk and `dataSize` from the `"data"` chunk. -/
structure FmtInfo where
  channels : Nat
  sampleRate : Nat
  bitsPerSample : Nat
  dataSize : Nat
deriving DecidableEq, Repr

/-- ASCII bytes of the `"RIFF"` magic. -/
def riffID : List Nat := [82, 73, 70, 70]

/-- ASCII bytes of the `"WAVE"` magic. -/
def waveID : List Nat := [87, 65, 86, 69]

/-- ASCII bytes of the `"fmt "` chunk ID. -/
def fmtID : List Nat := [102, 109, 116, 32]

/-- ASCII bytes of the `"data"` chunk ID. -/
def dataID : List Nat := [100, 97, 116, 97]

/-- RIFF word alignment: skip one extra pad byte when a chunk size is odd
(the `skip++` in the `default` arm of `wavDuration`). -/
def padSize (size : Nat) : Nat := if size % 2 = 1 then size + 1 else size

/-- Extraction of channels (bytes 2–3), sample rate (bytes 4–7) and
bits-per-sample (bytes 14–15) from the `"fmt "` chunk payload. -/
def readFmt (buf : List Nat) (st : FmtInfo) : FmtInfo :=
  { st with
    channels := le16L (buf.drop 2)
    sampleRate := le32L (buf.drop 4)
    bitsPerSample := le16L (buf.drop 14) }

/-- The sub-chunk scanning loop of `wavDuration`: starting at byte
offset `pos`, read an 8-byte chunk header, handle `"fmt "` (read the
payload, extract the format fields), stop at `"data"` (record the
declared size), and skip any other chunk word-aligned. -/
def scanChunks (l : List Nat) (pos : Nat) (st : FmtInfo) : Except String FmtInfo :=
  if h8 : pos + 8 ≤ l.length then
    if ((l.drop pos).take 8).take 4 = fmtID then
      if pos + 8 + le32L (((l.drop pos).take 8).drop 4) ≤ l.length then
        if le32L (((l.drop pos).take 8).drop 4) < 16 then .error "invalid fmt chunk"
        else
          scanChunks l (pos + 8 + le32L (((l.drop pos).take 8).drop 4))
            (readFmt ((l.drop (pos + 8)).take (le32L (((l.drop pos).take 8).drop 4))) st)
      else .error "unexpected EOF"
    else if ((l.drop pos).take 8).take 4 = dataID then
      .ok { st with dataSize := le32L (((l.drop pos).take 8).drop 4) }
    else scanChunks l (pos + 8 + padSize (le32L (((l.drop pos).take 8).drop 4))) st
  else .error "unexpected EOF"
termination_by l.length + 8 - pos
decreasing_by
  all_goals omega

/-- Model of an IEEE double division whose operands are finite exact
values: the result is non-finite exactly when the divisor is zero. -/
def floatDivQ (x y : ℚ) : Option ℚ := if y = 0 then none else some (x / y)

/-- The computation after the scan: the zero guards on the format
fields, the `uint16` bytes-per-sample product, and the final division
with its non-finite check. -/
def finishDuration (st : FmtInfo) : Except String ℚ :=
  if st.sampleRate = 0 ∨ st.channels = 0 ∨ st.bitsPerSample = 0 then
    .error "missing audio format information"
  else if st.bitsPerSample / 8 * st.channels % 65536 = 0 then
    .error "invalid bytes per sample"
  else
    match (floatDivQ (st.dataSize : ℚ) ((st.bitsPerSample / 8 * st.channels % 65536 : Nat) : ℚ)).bind
        (fun a => floatDivQ a ((st.sampleRate : ℚ))) with
    | none => .error "invalid duration computed"
    | some q => .ok q

/-- `wavDuration` over the bytes of one file: read and check the
12-byte RIFF/WAVE header, scan the sub-chunks from offset 12, then
compute the duration from the recorded format fields. -/
def wavDuration (l : List Nat) : Except String ℚ :=
  if l.length < 12 then .error "unexpected EOF"
  else if l.take 4 = riffID ∧ (l.drop 8).take 4 = waveID then
    match scanChunks l 12 ⟨0, 0, 0, 0⟩ with
    | .error e => .error e
    | .ok st => finishDuration st
  else .error "not a WAV file"

/-! ### Concrete PCM WAV headers -/

/-- Little-endian 16-bit encoding of a value. -/
def enc16 (n : Nat) : List Nat := [n % 256, n / 256 % 256]

/-- Little-endian 32-bit encoding of a value. -/
def enc32 (n : Nat) : List Nat :=
  [n % 256, n / 256 % 256, n / 65536 % 256, n / 16777216 % 256]

/-- What `le16L` recovers from `enc16`. -/
def raw16 (n : Nat) : Nat := n % 256 % 256 + 256 * (n / 256 % 256 % 256)

/-- What `le32L` recovers from `enc32`. -/
def raw32 (n : Nat) : Nat :=
  n % 256 % 256 + 256 * (n / 256 % 256 % 256) + 65536 * (n / 65536 % 256 % 256) +
    16777216 * (n / 16777216 % 256 % 256)

theorem raw16_eq {n : Nat} (h : n < 65536) : raw16 n = n := by
  unfold raw16; omega

theorem raw32_eq {n : Nat} (h : n < 4294967296) : raw32 n = n := by
  unfold raw32; omega

/-- A canonical 44-byte PCM WAV header: RIFF/WAVE magic, a 16-byte
`"fmt "` chunk holding the given channels, sample rate and
bits-per-sample, and a `"data"` chunk declaring `d` payload bytes. -/
def mkWav (c r b d : Nat) : List Nat :=
  riffID ++ enc32 36 ++ waveID ++
  fmtID ++ enc32 16 ++
  ([1, 0] ++ enc16 c ++ enc32 r ++ enc32 (r * (b / 8 * c)) ++ enc16 (b / 8 * c) ++ enc16 b) ++
  dataID ++ enc32 d

theorem mkWav_length (c r b d : Nat) : (mkWav c r b d).length = 44 := rfl

/-! ### Scan step lemmas -/

/-- On reading a `"data"` chunk header the scan stops at once, recording
the declared size; nothing after the 8-byte header is inspected. -/
theorem scan_data_stop (l : List Nat) (pos : Nat) (st : FmtInfo)
    (h8 : pos + 8 ≤ l.length)
    (hid : ((l.drop pos).take 8).take 4 = dataID) :
    scanChunks l pos st = .ok { st with dataSize := le32L (((l.drop pos).take 8).drop 4) } := by
  rw [scanChunks, dif_pos h8, hid]
  rw [if_neg (by decide : ¬(dataID = fmtID)), if_pos rfl]

/-- On reading a chunk header that is neither `"fmt "` nor `"data"`, the
scan skips exactly the declared size plus the odd-size pad byte. -/
theorem scan_skip_step (l : List Nat) (pos : Nat) (st : FmtInfo)
    (h8 : pos + 8 ≤ l.length)
    (hfmt : ((l.drop pos).take 8).take 4 ≠ fmtID)
    (hdata : ((l.drop pos).take 8).take 4 ≠ dataID) :
    scanChunks l pos st =
      scanChunks l (pos + 8 + padSize (le32L (((l.drop pos).take 8).drop 4))) st := by
  conv_lhs => rw [scanChunks]
  rw [dif_pos h8, if_neg hfmt, if_neg hdata]

/-- Reading the 8-byte chunk header at `pos` is unaffected by bytes
appended after the end of the stream. -/
theorem header_append (l junk : List Nat) (pos : Nat) (h8 : pos + 8 ≤ l.length) :
    ((l ++ junk).drop pos).take 8 = (l.drop pos).take 8 := by
  rw [List.drop_append_of_le_length (by omega)]
  rw [List.take_append_of_le_length (by simp; omega)]

/-- First scan step on `mkWav`: the `"fmt "` chunk at offset 12 is read
and its fields extracted. -/
theorem scan_mkWav_fmt (c r b d : Nat) :
    scanChunks (mkWav c r b d) 12 ⟨0, 0, 0, 0⟩ =
      scanChunks (mkWav c r b d) 36 ⟨raw16 c, raw32 r, raw16 b, 0⟩ := by
  conv_lhs => rw [scanChunks]
  rfl

/-- Second scan step on `mkWav`: the `"data"` chunk at offset 36 stops
the scan with the declared payload size. -/
theorem scan_mkWav_data (c r b d : Nat) (st : FmtInfo) :
    scanChunks (mkWav c r b d) 36 st = .ok { st with dataSize := raw32 d } := by
  conv_lhs => rw [scanChunks]
  rfl

/-- `wavDuration` on a canonical header reduces to the post-scan
computation on the decoded fields. -/
theorem wav_mkWav_finish (c r b d : Nat) :
    wavDuration (mkWav c r b d) = finishDuration ⟨raw16 c, raw32 r, raw16 b, raw32 d⟩ := by
  have h0 : wavDuration (mkWav c r b d) =
      (match scanChunks (mkWav c r b d) 12 ⟨0, 0, 0, 0⟩ with
        | .error e => .error e
        | .ok st => finishDuration st) := rfl
  rw [h0, scan_mkWav_fmt, scan_mkWav_data]

/-! ### The duration computation -/

/-- When every zero guard passes, `finishDuration` returns the exact
quotient `dataSize / bytesPerSample / sampleRate`. -/
theorem finish_ok (st : FmtInfo) (hr : st.sampleRate ≠ 0) (hc : st.channels ≠ 0)
    (hb : st.bitsPerSample ≠ 0) (hbps : st.bitsPerSample / 8 * st.channels % 65536 ≠ 0) :
    finishDuration st =
      .ok ((st.dataSize : ℚ) / ((st.bitsPerSample / 8 * st.channels % 65536 : Nat) : ℚ) /
        (st.sampleRate : ℚ)) := by
  have h1 : ¬(st.sampleRate = 0 ∨ st.channels = 0 ∨ st.bitsPerSample = 0) := by tauto
  have h2 : ((st.bitsPerSample / 8 * st.channels % 65536 : Nat) : ℚ) ≠ 0 :=
    Nat.cast_ne_zero.mpr hbps
  have h3 : ((st.sampleRate : Nat) : ℚ) ≠ 0 := Nat.cast_ne_zero.mpr hr
  simp [finishDuration, floatDivQ, h1, h2, h3, hbps]

/-- The sub-chunk scan fails only with a short-read or short-fmt
message. -/
theorem scan_error_msgs (n : Nat) :
    ∀ (l : List Nat) (pos : Nat) (st : FmtInfo) (e : String),
      l.length + 8 - pos ≤ n → scanChunks l pos st = .error e →
      e = "unexpected EOF" ∨ e = "invalid fmt chunk" := by
  induction n with
  | zero =>
    intro l pos st e hm h
    rw [scanChunks] at h
    split at h
    · omega
    · injection h with h'
      exact Or.inl h'.symm
  | succ n ih =>
    intro l pos st e hm h
    rw [scanChunks] at h
    split at h
    · split at h
      · split at h
        · split at h
          · injection h with h'
            exact Or.inr h'.symm
          · exact ih _ _ _ _ (by omega) h
        · injection h with h'
          exact Or.inl h'.symm
      · split at h
        · exact absurd h (by simp)
        · exact ih _ _ _ _ (by omega) h
    · injection h with h'
      exact Or.inl h'.symm

/-- The post-scan computation fails only with a missing-format or
zero-bytes-per-sample message; the non-finite branch is unreachable. -/
theorem finish_error_msgs (st : FmtInfo) (e : String) (h : finishDuration st = .error e) :
    e = "missing audio format information" ∨ e = "invalid bytes per sample" := by
  by_cases h1 : st.sampleRate = 0 ∨ st.channels = 0 ∨ st.bitsPerSample = 0
  · rw [finishDuration, if_pos h1] at h
    injection h with h'
    exact Or.inl h'.symm
  · by_cases h2 : st.bitsPerSample / 8 * st.channels % 65536 = 0
    · rw [finishDuration, if_neg h1, if_pos h2] at h
      injection h with h'
      exact Or.inr h'.symm
    · exfalso
      have hr : st.sampleRate ≠ 0 := by tauto
      rw [finish_ok st hr (by tauto) (by tauto) h2] at h
      exact Except.noConfusion h

/-- A successful `floatDivQ` is the exact quotient. -/
theorem floatDivQ_eq (x y z : ℚ) (h : floatDivQ x y = some z) : z = x / y := by
  unfold floatDivQ at h
  split at h
  · exact absurd h (by simp)
  · injection h with h'
    exact h'.symm

/-- A successfully computed duration is non-negative. -/
theorem finish_ok_nonneg (st : FmtInfo) (q : ℚ) (h : finishDuration st = .ok q) : 0 ≤ q := by
  unfold finishDuration at h
  split at h
  · exact absurd h (by simp)
  · split at h
    · exact absurd h (by simp)
    · cases hb : (floatDivQ (st.dataSize : ℚ)
          ((st.bitsPerSample / 8 * st.channels % 65536 : Nat) : ℚ)).bind
          (fun a => floatDivQ a ((st.sampleRate : ℚ))) with
      | none => rw [hb] at h; exact absurd h (by simp)
      | some q' =>
        rw [hb] at h
        injection h with h'
        subst h'
        rcases Option.bind_eq_some.mp hb with ⟨a, ha, hq⟩
        rw [floatDivQ_eq _ _ _ hq, floatDivQ_eq _ _ _ ha]
        positivity

/-- The complete list of error messages `wavDuration` can produce. -/
theorem wavDuration_error_msgs (l : List Nat) (e : String) (h : wavDuration l = .error e) :
    e = "unexpected EOF" ∨ e = "invalid fmt chunk" ∨ e = "not a WAV file" ∨
      e = "missing audio format information" ∨ e = "invalid bytes per sample" := by
  unfold wavDuration at h
  split at h
  · injection h with h'
    exact Or.inl h'.symm
  · split at h
    · cases hs : scanChunks l 12 ⟨0, 0, 0, 0⟩ with
      | error e2 =>
        rw [hs] at h
        injection h with h'
        subst h'
        rcases scan_error_msgs (l.length + 8) l 12 _ e2 (by omega) hs with h2 | h2 <;> tauto
      | ok st =>
        rw [hs] at h
        rcases finish_error_msgs st e h with h2 | h2 <;> tauto
    · injection h with h'
      tauto

/-! ### Claims about the WAV inspector -/

/-- The scan of the canonical header recovers its parameters. -/
theorem scan_mkWav (c r b d : Nat) (hc : c < 65536) (hr : r < 4294967296)
    (hb : b < 65536) (hd : d < 4294967296) :
    scanChunks (mkWav c r b d) 12 ⟨0, 0, 0, 0⟩ = .ok ⟨c, r, b, d⟩ := by
  rw [scan_mkWav_fmt, scan_mkWav_data]
  simp only [raw16_eq hc, raw32_eq hr, raw16_eq hb, raw32_eq hd]

/-- C2 (amended): for every byte stream whose PCM WAV header parses
(RIFF/WAVE magic, a sub-chunk scan that finds a `"fmt "` chunk with
nonzero channels, sample rate and bits-per-sample, and stops at a
`"data"` chunk) and whose derived bytes-per-sample
`bitsPerSample / 8 * channels` (computed in 16-bit arithmetic, with
truncating division) is nonzero, `wavDuration` returns exactly
`dataSize / bytesPerSample / sampleRate`. -/
theorem wavDuration_exact (l : List Nat) (st : FmtInfo)
    (hlen : ¬l.length < 12)
    (hmagic : l.take 4 = riffID ∧ (l.drop 8).take 4 = waveID)
    (hscan : scanChunks l 12 ⟨0, 0, 0, 0⟩ = .ok st)
    (hr0 : st.sampleRate ≠ 0) (hc0 : st.channels ≠ 0) (hb0 : st.bitsPerSample ≠ 0)
    (hbps : st.bitsPerSample / 8 * st.channels % 65536 ≠ 0) :
    wavDuration l =
      .ok ((st.dataSize : ℚ) / ((st.bitsPerSample / 8 * st.channels % 65536 : Nat) : ℚ) /
        (st.sampleRate : ℚ)) := by
  unfold wavDuration
  rw [if_neg hlen, if_pos hmagic, hscan]
  exact finish_ok st hr0 hc0 hb0 hbps

/-- C2 witness: mono 16 kHz 16-bit with 32000 bytes of data yields
exactly one second. -/
theorem wavDuration_exact_witness :
    wavDuration (mkWav 1 16000 16 32000) = .ok 1 := by
  rw [wavDuration_exact (mkWav 1 16000 16 32000) ⟨1, 16000, 16, 32000⟩ (by decide)
    (by constructor <;> rfl)
    (scan_mkWav 1 16000 16 32000 (by decide) (by decide) (by decide) (by decide))
    (by decide) (by decide) (by decide) (by decide)]
  norm_num

/-- C2 counterexample: a header with channels = 1, sampleRate = 1,
bitsPerSample = 4 and a `"data"` chunk of 8 bytes parses (all three
format fields are nonzero), yet `wavDuration` returns the
"invalid bytes per sample" error rather than the claimed quotient,
because the truncating 16-bit product `4 / 8 * 1 = 0`. -/
theorem wavDuration_exact_cex :
    wavDuration (mkWav 1 1 4 8) = .error "invalid bytes per sample" ∧
    ∀ q : ℚ, wavDuration (mkWav 1 1 4 8) ≠ .ok q := by
  have h : wavDuration (mkWav 1 1 4 8) = .error "invalid bytes per sample" := by
    rw [wav_mkWav_finish]
    rfl
  exact ⟨h, fun q hq => by rw [h] at hq; exact Except.noConfusion hq⟩

/-- C7: while scanning RIFF sub-chunks, the scanner stops at the first
`"data"` chunk, recording its declared size without reading the payload
(bytes appended after the stream never change the result), and for every
chunk whose ID is neither `"fmt "` nor `"data"` it advances past exactly
`size` bytes plus one pad byte when `size` is odd. -/
theorem scanChunks_step_props (l : List Nat) (pos : Nat) (st : FmtInfo)
    (h8 : pos + 8 ≤ l.length) :
    (((l.drop pos).take 8).take 4 = dataID →
      scanChunks l pos st = .ok { st with dataSize := le32L (((l.drop pos).take 8).drop 4) }) ∧
    (((l.drop pos).take 8).take 4 = dataID →
      ∀ junk, scanChunks (l ++ junk) pos st = scanChunks l pos st) ∧
    (((l.drop pos).take 8).take 4 ≠ fmtID → ((l.drop pos).take 8).take 4 ≠ dataID →
      scanChunks l pos st =
        scanChunks l (pos + 8 + padSize (le32L (((l.drop pos).take 8).drop 4))) st) := by
  refine ⟨fun hid => scan_data_stop l pos st h8 hid, fun hid junk => ?_,
    fun hf hd => scan_skip_step l pos st h8 hf hd⟩
  have hh := header_append l junk pos h8
  rw [scan_data_stop (l ++ junk) pos st (by simp; omega) (by rw [hh]; exact hid),
    scan_data_stop l pos st h8 hid, hh]

/-- An 8-byte `"data"` chunk header declaring 5 payload bytes. -/
def dataHdr5 : List Nat := dataID ++ enc32 5

/-- An 8-byte `"JUNK"` chunk header declaring 0 payload bytes. -/
def junkHdr : List Nat := [74, 85, 78, 75] ++ enc32 0

/-- C7 witness: on concrete streams, the scan stops at a `"data"` header
with the declared size 5, ignores appended bytes, and skips a `"JUNK"`
chunk of size 0 by exactly 8 bytes. -/
theorem scanChunks_step_props_witness :
    scanChunks dataHdr5 0 ⟨0, 0, 0, 0⟩ = .ok ⟨0, 0, 0, 5⟩ ∧
    scanChunks (dataHdr5 ++ [9, 9]) 0 ⟨0, 0, 0, 0⟩ = scanChunks dataHdr5 0 ⟨0, 0, 0, 0⟩ ∧
    scanChunks (junkHdr ++ dataHdr5) 0 ⟨0, 0, 0, 0⟩ =
      scanChunks (junkHdr ++ dataHdr5) 8 ⟨0, 0, 0, 0⟩ := by
  refine ⟨?_, ?_, ?_⟩
  · exact (scanChunks_step_props dataHdr5 0 ⟨0, 0, 0, 0⟩ (by decide)).1 rfl
  · exact (scanChunks_step_props dataHdr5 0 ⟨0, 0, 0, 0⟩ (by decide)).2.1 rfl [9, 9]
  · exact (scanChunks_step_props (junkHdr ++ dataHdr5) 0 ⟨0, 0, 0, 0⟩ (by decide)).2.2
      (by decide) (by decide)

/-- C10: the final non-finite-duration branch of `wavDuration` is
unreachable — the function never returns the "invalid duration computed"
error — and every successfully computed duration is non-negative. -/
theorem wavDuration_no_invalid_duration :
    (∀ (l : List Nat) (e : String), wavDuration l = .error e → e ≠ "invalid duration computed") ∧
    (∀ (l : List Nat) (q : ℚ), wavDuration l = .ok q → 0 ≤ q) := by
  constructor
  · intro l e h
    rcases wavDuration_error_msgs l e h with rfl | rfl | rfl | rfl | rfl <;> decide
  · intro l q h
    unfold wavDuration at h
    split at h
    · exact absurd h (by simp)
    · split at h
      · cases hs : scanChunks l 12 ⟨0, 0, 0, 0⟩ with
        | error e2 => rw [hs] at h; exact absurd h (by simp)
        | ok st => rw [hs] at h; exact finish_ok_nonneg st q h
      · exact absurd h (by simp)

/-- C10 witness: an empty stream fails with a short-read message (not
the unreachable one), and the one-second mono file has a non-negative
duration. -/
theorem wavDuration_no_invalid_duration_witness :
    (("unexpected EOF" : String) ≠ "invalid duration computed" ∧
      wavDuration [] = .error "unexpected EOF") ∧
    (0 ≤ (1 : ℚ) ∧ wavDuration (mkWav 1 16000 16 32000) = .ok 1) := by
  have h1 : wavDuration [] = .error "unexpected EOF" := rfl
  have h2 : wavDuration (mkWav 1 16000 16 32000) = .ok 1 := by
    rw [wav_mkWav_finish]
    norm_num [finishDuration, floatDivQ, raw16, raw32]
  exact ⟨⟨wavDuration_no_invalid_duration.1 [] _ h1, h1⟩,
    ⟨wavDuration_no_invalid_duration.2 (mkWav 1 16000 16 32000) 1 h2, h2⟩⟩

/-! ### Data model (model/job.go) -/

/-- `JobStatus`: the closed lifecycle enum. -/
inductive JobStatus where
  | pending
  | processing
  | completed
  | failed
deriving DecidableEq, Repr

/-- `Chunk`: metadata for one audio slice.  Optional string fields use
`""` for Go's zero value. -/
structure Chunk where
  index : Int
  startSeconds : ℚ
  durationSeconds : ℚ
  audioFile : String
  base64File : String
  transcriptFile : String
  transcriptPreview : String
deriving DecidableEq, Repr

/-- `Job`: the persisted job record.  `time.Time` values are modelled by
their integer instants. -/
structure Job where
  id : String
  originalFileName : String
  originalVideoPath : String
  createdAt : Int
  completedAt : Option Int
  chunkDurationSeconds : Int
  transcriptionRequested : Bool
  status : JobStatus
  errorMessage : String
  chunks : List Chunk
  processingLog : String
deriving DecidableEq, Repr

/-- A default chunk used with `List.getD`. -/
def dummyChunk : Chunk := ⟨0, 0, 0, "", "", "", ""⟩

/-! ### Pipeline runner (processor.go, `Process`) -/

/-- `Processor`: the external binary configuration. -/
structure Processor where
  ffmpegBin : String
  whisperBin : String
  whisperArgs : List String

/-- `Options`: chunking and extras configuration. -/
structure Options where
  chunkDurationSeconds : Int
  makeBase64 : Bool
  transcribe : Bool

/-- `Result` of a run, extended with a ghost `invocations` field that
records one entry per external command executed (`runCommand` call), for
stating the log/invocation correspondence. -/
structure ProcResult where
  chunks : List Chunk
  logs : List String
  invocations : List (String × List String)
deriving DecidableEq, Repr

/-- The external world as observed by one pipeline run: lookup result
for the transcoder binary, directory-creation outcome, transcoder
combined output and exit status, glob outcome, per-iteration
cancellation signal, file contents, base64-write outcomes, and
per-chunk transcription output, exit status and transcript file
contents. -/
structure Env where
  lookPathErr : Option String
  mkdirErr : Option String
  ffmpegLog : String
  ffmpegExitErr : Option String
  globResult : Except String (List String)
  cancelled : Nat → Bool
  fileBytes : String → Option (List Nat)
  base64WriteErr : String → Option String
  whisperLog : String → String
  whisperExitErr : String → Option String
  readFileResult : String → Except String String

/-- `filepath.Join` for the slash-separated relative paths the runner
builds. -/
def pathJoin (a b : String) : String := a ++ "/" ++ b

/-- `filepath.Base`: the final path element (the characters after the
last separator; the runner's paths never end in a separator). -/
def baseName (s : String) : String :=
  ⟨s.data.foldl (fun acc c => if c = '/' then [] else acc ++ [c]) []⟩

/-- `strings.TrimSuffix(base, filepath.Ext(base))`: the base name with
its final dot-extension removed. -/
def stemOf (s : String) : String :=
  if s.data.contains '.' then ⟨(((s.data.reverse).dropWhile (fun c => !(c = '.'))).drop 1).reverse⟩
  else s

/-- The stem of a chunk file's base name, used for base64 and transcript
artifact names. -/
def chunkStem (path : String) : String := stemOf (baseName path)

/-- The fixed ffmpeg argument list: audio-only, mono 16 kHz 16-bit PCM,
fixed-duration segmentation with per-segment timestamp reset, zero-padded
output pattern. -/
def ffmpegArgs (inputPath : String) (secs : Int) (pattern : String) : List String :=
  ["-y", "-i", inputPath, "-vn", "-acodec", "pcm_s16le", "-ar", "16000", "-ac", "1",
   "-f", "segment", "-segment_time", toString secs, "-reset_timestamps", "1", pattern]

/-- The per-chunk whisper argument list. -/
def whisperArgsFor (p : Processor) (jobDir path : String) : List String :=
  p.whisperArgs ++ ["-f", path, "-otxt", "-of", pathJoin (pathJoin jobDir "transcripts") (chunkStem path)]

/-- `readPreview`: at most `limit` characters of the transcript, with a
truncation marker. -/
def previewOf (s : String) (limit : Nat) : String :=
  if s.length ≤ limit then s else (s.take limit) ++ "..."

/-- `wavDuration` applied to the file at `path` in the observed file
system (`os.Open` + the header walk). -/
def wavDurationFile (env : Env) (path : String) : Except String ℚ :=
  match env.fileBytes path with
  | none => .error ("open " ++ path ++ ": no such file or directory")
  | some bs => wavDuration bs

/-- The `Chunk` value built for one discovered file: deterministic index
and start offset, measured duration, artifact paths, and the optional
base64/transcript fields exactly as the loop body sets them. -/
def mkChunkRecord (env : Env) (jobDir : String) (opts : Options)
    (transcribe : Bool) (path : String) (idx : Nat) (dur : ℚ) : Chunk :=
  let c0 : Chunk :=
    ⟨(idx : Int), (((idx : Int) * opts.chunkDurationSeconds : Int) : ℚ), dur,
      pathJoin "chunks" (baseName path), "", "", ""⟩
  let c1 := if opts.makeBase64 then
      { c0 with base64File := pathJoin "base64" (chunkStem path ++ ".b64.txt") }
    else c0
  if transcribe then
    match env.whisperExitErr path with
    | some e => { c1 with transcriptPreview := "transcription failed: " ++ e }
    | none =>
      match env.readFileResult (pathJoin (pathJoin jobDir "transcripts") (chunkStem path) ++ ".txt") with
      | .error re => { c1 with transcriptPreview := "unable to read transcript: " ++ re }
      | .ok content =>
        { c1 with
          transcriptPreview := previewOf content 400
          transcriptFile := pathJoin "transcripts" (chunkStem path ++ ".txt") }
  else c1

/-- The accumulator after one loop iteration: the new chunk appended,
and — when transcription ran — one more log entry and one more recorded
invocation. -/
def nextAcc (p : Processor) (env : Env) (jobDir : String) (opts : Options)
    (transcribe : Bool) (path : String) (idx : Nat) (dur : ℚ) (acc : ProcResult) : ProcResult :=
  { chunks := acc.chunks ++ [mkChunkRecord env jobDir opts transcribe path idx dur]
    logs := acc.logs ++ (if transcribe then [env.whisperLog path] else [])
    invocations := acc.invocations ++
      (if transcribe then [(p.whisperBin, whisperArgsFor p jobDir path)] else []) }

/-- The chunk loop of `Process`: per discovered file, check
cancellation, measure the duration via `wavDuration` (fatal on error),
optionally write the base64 dump (fatal on error), optionally run
transcription (never fatal), and append the chunk.  Error returns carry
the logs accumulated so far and no chunks, exactly as the Go
`return Result{Logs: logs}, err` does. -/
def processChunks (p : Processor) (env : Env) (jobDir : String) (opts : Options)
    (transcribe : Bool) : List String → Nat → ProcResult → ProcResult × Option String
  | [], _, acc => (acc, none)
  | path :: rest, idx, acc =>
    if env.cancelled idx then
      ({ acc with chunks := [] }, some "context canceled")
    else
      match wavDurationFile env path with
      | .error e => ({ acc with chunks := [] }, some ("determining chunk duration: " ++ e))
      | .ok dur =>
        match (if opts.makeBase64 then env.base64WriteErr path else none) with
        | some e => ({ acc with chunks := [] }, some ("creating base64 dump: " ++ e))
        | none =>
          processChunks p env jobDir opts transcribe rest (idx + 1)
            (nextAcc p env jobDir opts transcribe path idx dur acc)

/-- `Process`: resolve the transcoder binary, create the output
directories, run the transcoder once, glob and sort the produced chunk
files, and run the per-chunk loop. -/
def process (p : Processor) (env : Env) (jobDir inputPath : String) (opts : Options) :
    ProcResult × Option String :=
  let ffmpeg := if p.ffmpegBin = "" then "ffmpeg" else p.ffmpegBin
  match env.lookPathErr with
  | some e => (⟨[], [], []⟩, some ("ffmpeg binary not found: " ++ e))
  | none =>
    match env.mkdirErr with
    | some e => (⟨[], [], []⟩, some ("creating processing directory: " ++ e))
    | none =>
      let args := ffmpegArgs inputPath opts.chunkDurationSeconds
        (pathJoin (pathJoin jobDir "chunks") "chunk_%03d.wav")
      let acc0 : ProcResult := ⟨[], [env.ffmpegLog], [(ffmpeg, args)]⟩
      match env.ffmpegExitErr with
      | some e => ({ acc0 with chunks := [] }, some ("running ffmpeg: " ++ e))
      | none =>
        match env.globResult with
        | .error e => (acc0, some ("locating chunks: " ++ e))
        | .ok files =>
          let sorted := List.insertionSort (fun a b : String => a ≤ b) files
          if sorted.length = 0 then (acc0, some "no audio chunks produced")
          else
            processChunks p env jobDir opts (opts.transcribe && !(p.whisperBin = ""))
              sorted 0 acc0

/-! ### Job lifecycle coordinator (main.go) -/

/-- The `Job` record `handleUpload` creates and persists: `pending`
status, no completion timestamp, no error, no chunks, no log. -/
def mkPendingJob (jobID fileName : String) (createdAt chunkDuration : Int)
    (transcribe : Bool) : Job :=
  { id := jobID
    originalFileName := fileName
    originalVideoPath := pathJoin "original" fileName
    createdAt := createdAt
    completedAt := none
    chunkDurationSeconds := chunkDuration
    transcriptionRequested := transcribe
    status := .pending
    errorMessage := ""
    chunks := []
    processingLog := "" }

/-- The pending-to-processing update at the top of `processJob`: set the
status and clear any prior error message and log. -/
def toProcessing (j : Job) : Job :=
  { j with status := .processing, errorMessage := "", processingLog := "" }

/-- The delimiter `processJob` joins log entries with. -/
def logDelim : String := "\n---\n"

/-- `processJob`: mark the job processing, run the pipeline, and build
the terminal record that is persisted — `failed` with the error text
appended to the joined log on error, `completed` with the joined log on
success; both record the pipeline's chunk manifest and a completion
timestamp. -/
def processJobModel (p : Processor) (env : Env) (job : Job) (jobDir originalPath : String)
    (opts : Options) (now : Int) : Job :=
  let j1 := toProcessing job
  match process p env jobDir originalPath opts with
  | (res, some e) =>
    { j1 with
      status := .failed
      errorMessage := e
      chunks := res.chunks
      processingLog := String.intercalate logDelim (res.logs ++ [e])
      completedAt := some now }
  | (res, none) =>
    { j1 with
      status := .completed
      errorMessage := ""
      chunks := res.chunks
      processingLog := String.intercalate logDelim res.logs
      completedAt := some now }

/-! ### Pipeline loop lemmas -/

/-- A string with a non-empty first part cannot concatenate to the empty
string. -/
theorem append_ne_empty {a : String} (b : String) (h : 0 < a.length) : a ++ b ≠ "" := by
  intro he
  have hl := congrArg String.length he
  rw [String.length_append] at hl
  simp at hl
  omega

/-- Every error produced by the chunk loop is a non-empty message, and
every error return carries an empty chunk list. -/
theorem processChunks_error (p : Processor) (env : Env) (jobDir : String) (opts : Options)
    (transcribe : Bool) :
    ∀ (files : List String) (idx : Nat) (acc : ProcResult) (res : ProcResult) (e : String),
      processChunks p env jobDir opts transcribe files idx acc = (res, some e) →
      e ≠ "" ∧ res.chunks = [] := by
  intro files
  induction files with
  | nil =>
    intro idx acc res e h
    rw [processChunks] at h
    exact absurd (congrArg Prod.snd h) (by simp)
  | cons path rest ih =>
    intro idx acc res e h
    rw [processChunks] at h
    split at h
    · obtain ⟨h1, h2⟩ := Prod.mk.injEq .. ▸ h
      injection h2 with h2
      subst h2
      exact ⟨by decide, by rw [← h1]⟩
    · split at h
      · rename_i e2 _
        obtain ⟨h1, h2⟩ := Prod.mk.injEq .. ▸ h
        injection h2 with h2
        subst h2
        exact ⟨append_ne_empty _ (by decide), by rw [← h1]⟩
      · split at h
        · rename_i e2 _
          obtain ⟨h1, h2⟩ := Prod.mk.injEq .. ▸ h
          injection h2 with h2
          subst h2
          exact ⟨append_ne_empty _ (by decide), by rw [← h1]⟩
        · exact ih _ _ _ _ h

/-- Every error produced by `process` is a non-empty message, and every
error result carries an empty chunk manifest. -/
theorem process_error (p : Processor) (env : Env) (jobDir inputPath : String) (opts : Options)
    (res : ProcResult) (e : String)
    (h : process p env jobDir inputPath opts = (res, some e)) :
    e ≠ "" ∧ res.chunks = [] := by
  rw [process] at h
  cases hlp : env.lookPathErr with
  | some e2 =>
    simp only [hlp, Prod.mk.injEq, Option.some.injEq] at h
    obtain ⟨h1, h2⟩ := h
    exact ⟨h2 ▸ append_ne_empty _ (by decide), by rw [← h1]⟩
  | none =>
  simp only [hlp] at h
  cases hmk : env.mkdirErr with
  | some e2 =>
    simp only [hmk, Prod.mk.injEq, Option.some.injEq] at h
    obtain ⟨h1, h2⟩ := h
    exact ⟨h2 ▸ append_ne_empty _ (by decide), by rw [← h1]⟩
  | none =>
  simp only [hmk] at h
  cases hff : env.ffmpegExitErr with
  | some e2 =>
    simp only [hff, Prod.mk.injEq, Option.some.injEq] at h
    obtain ⟨h1, h2⟩ := h
    exact ⟨h2 ▸ append_ne_empty _ (by decide), by rw [← h1]⟩
  | none =>
  simp only [hff] at h
  cases hgl : env.globResult with
  | error e2 =>
    simp only [hgl, Prod.mk.injEq, Option.some.injEq] at h
    obtain ⟨h1, h2⟩ := h
    exact ⟨h2 ▸ append_ne_empty _ (by decide), by rw [← h1]⟩
  | ok files =>
  simp only [hgl] at h
  by_cases hlen : (List.insertionSort (fun a b : String => a ≤ b) files).length = 0
  · rw [if_pos hlen] at h
    simp only [Prod.mk.injEq, Option.some.injEq] at h
    obtain ⟨h1, h2⟩ := h
    exact ⟨h2 ▸ (by decide), by rw [← h1]⟩
  · rw [if_neg hlen] at h
    exact processChunks_error p env jobDir opts _ _ _ _ _ _ h

theorem getD_append_left {α : Type} (l1 l2 : List α) (d : α) (n : Nat) (h : n < l1.length) :
    (l1 ++ l2).getD n d = l1.getD n d := by
  simp [List.getD_eq_getElem?_getD, List.getElem?_append_left h]

theorem getD_append_right {α : Type} (l1 l2 : List α) (d : α) (n : Nat) :
    (l1 ++ l2).getD (l1.length + n) d = l2.getD n d := by
  simp [List.getD_eq_getElem?_getD, List.getElem?_append_right (by omega : l1.length ≤ l1.length + n)]

/-- The deterministic fields of a built chunk: index, start offset and
audio path do not depend on the base64/transcription outcomes. -/
theorem mkChunkRecord_fields (env : Env) (jobDir : String) (opts : Options)
    (transcribe : Bool) (path : String) (idx : Nat) (dur : ℚ) :
    (mkChunkRecord env jobDir opts transcribe path idx dur).index = (idx : Int) ∧
    (mkChunkRecord env jobDir opts transcribe path idx dur).startSeconds =
      (((idx : Int) * opts.chunkDurationSeconds : Int) : ℚ) ∧
    (mkChunkRecord env jobDir opts transcribe path idx dur).audioFile =
      pathJoin "chunks" (baseName path) := by
  simp only [mkChunkRecord]
  repeat' split
  all_goals simp

/-- Loop invariant for a successful pass over the remaining files:
exactly one chunk per file is appended, previously built chunks are
preserved, and the appended chunk at position `k` has index `idx + k`,
start offset `(idx + k) × chunkDuration`, and the `k`-th file's audio
path. -/
theorem processChunks_ok (p : Processor) (env : Env) (jobDir : String) (opts : Options)
    (transcribe : Bool) :
    ∀ (files : List String) (idx : Nat) (acc res : ProcResult),
      processChunks p env jobDir opts transcribe files idx acc = (res, none) →
      res.chunks.length = acc.chunks.length + files.length ∧
      (∀ k, k < acc.chunks.length →
        res.chunks.getD k dummyChunk = acc.chunks.getD k dummyChunk) ∧
      (∀ k, k < files.length →
        (res.chunks.getD (acc.chunks.length + k) dummyChunk).index = ((idx + k : Nat) : Int) ∧
        (res.chunks.getD (acc.chunks.length + k) dummyChunk).startSeconds =
          ((((idx + k : Nat) : Int) * opts.chunkDurationSeconds : Int) : ℚ) ∧
        (res.chunks.getD (acc.chunks.length + k) dummyChunk).audioFile =
          pathJoin "chunks" (baseName (files.getD k ""))) := by
  intro files
  induction files with
  | nil =>
    intro idx acc res h
    rw [processChunks] at h
    obtain ⟨h1, _⟩ := Prod.mk.injEq .. ▸ h
    subst h1
    refine ⟨by simp, fun k _ => rfl, fun k hk => absurd hk (by simp)⟩
  | cons path rest ih =>
    intro idx acc res h
    rw [processChunks] at h
    cases hc : env.cancelled idx with
    | true =>
      simp only [hc] at h
      exact absurd (congrArg Prod.snd h) (by simp)
    | false =>
    simp only [hc] at h
    cases hw : wavDurationFile env path with
    | error e =>
      simp only [hw] at h
      exact absurd (congrArg Prod.snd h) (by simp)
    | ok dur =>
    simp only [hw] at h
    cases hb : (if opts.makeBase64 then env.base64WriteErr path else none) with
    | some e =>
      simp only [hb] at h
      exact absurd (congrArg Prod.snd h) (by simp)
    | none =>
    simp only [hb] at h
    obtain ⟨hlen, hpre, hnew⟩ := ih (idx + 1) _ res h
    have hacc : (nextAcc p env jobDir opts transcribe path idx dur acc).chunks =
        acc.chunks ++ [mkChunkRecord env jobDir opts transcribe path idx dur] := rfl
    rw [hacc] at hlen hpre hnew
    simp only [List.length_append, List.length_cons, List.length_nil] at hlen hpre hnew
    refine ⟨by simp; omega, ?_, ?_⟩
    · intro k hk
      rw [hpre k (by omega)]
      exact getD_append_left _ _ _ _ hk
    · intro k hk
      cases k with
      | zero =>
        have hgd : (acc.chunks ++ [mkChunkRecord env jobDir opts transcribe path idx dur]).getD
            acc.chunks.length dummyChunk =
            mkChunkRecord env jobDir opts transcribe path idx dur := by
          have := getD_append_right acc.chunks
            [mkChunkRecord env jobDir opts transcribe path idx dur] dummyChunk 0
          simp only [Nat.add_zero, List.getD_cons_zero] at this
          exact this
        have h0 := hpre acc.chunks.length (by omega)
        rw [hgd] at h0
        simp only [Nat.add_zero] at h0 ⊢
        rw [h0]
        obtain ⟨f1, f2, f3⟩ := mkChunkRecord_fields env jobDir opts transcribe path idx dur
        exact ⟨f1, f2, by simpa using f3⟩
      | succ k' =>
        have hidx : acc.chunks.length + (k' + 1) = (acc.chunks.length + 1) + k' := by omega
        rw [hidx]
        obtain ⟨g1, g2, g3⟩ := hnew k' (by simpa using hk)
        have hcast : ((idx + 1 + k' : Nat) : Int) = ((idx + (k' + 1) : Nat) : Int) := by
          push_cast; ring
        refine ⟨?_, ?_, ?_⟩
        · rw [g1, hcast]
        · rw [g2, hcast]
        · rw [g3]
          rfl

/-- The chunk loop keeps the captured logs and the recorded invocations
in lockstep: one log entry per invocation. -/
theorem processChunks_balance (p : Processor) (env : Env) (jobDir : String) (opts : Options)
    (transcribe : Bool) :
    ∀ (files : List String) (idx : Nat) (acc : ProcResult),
      acc.logs.length = acc.invocations.length →
      (processChunks p env jobDir opts transcribe files idx acc).1.logs.length =
        (processChunks p env jobDir opts transcribe files idx acc).1.invocations.length := by
  intro files
  induction files with
  | nil =>
    intro idx acc hb
    rw [processChunks]
    exact hb
  | cons path rest ih =>
    intro idx acc hb
    rw [processChunks]
    split
    · exact hb
    · split
      · exact hb
      · split
        · exact hb
        · refine ih (idx + 1) _ ?_
          cases transcribe <;> simp [nextAcc, hb]

/-- `process` keeps logs and invocations in lockstep: the result carries
exactly one captured combined-output entry per external invocation
recorded. -/
theorem process_balance (p : Processor) (env : Env) (jobDir inputPath : String)
    (opts : Options) :
    (process p env jobDir inputPath opts).1.logs.length =
      (process p env jobDir inputPath opts).1.invocations.length := by
  rw [process]
  cases hlp : env.lookPathErr with
  | some e => rfl
  | none =>
  cases hmk : env.mkdirErr with
  | some e => rfl
  | none =>
  cases hff : env.ffmpegExitErr with
  | some e => rfl
  | none =>
  cases hgl : env.globResult with
  | error e => rfl
  | ok files =>
  simp only
  split
  · rfl
  · exact processChunks_balance p env jobDir opts _ _ 0 _ rfl

/-! ### Claims about the pipeline runner and coordinator -/

/-- C1 (amended): a pipeline run that fails yields a persisted job with
status `failed`, a set completion timestamp and a non-empty error
message, and its chunk sequence equals the manifest returned by the
failed run — which is always empty, because every error return of the
runner carries only the logs: chunks processed before the failure point
are discarded, not retained. -/
theorem processJob_failure (p : Processor) (env : Env) (job : Job)
    (jobDir inputPath : String) (opts : Options) (now : Int)
    (res : ProcResult) (e : String)
    (h : process p env jobDir inputPath opts = (res, some e)) :
    (processJobModel p env job jobDir inputPath opts now).status = .failed ∧
    (processJobModel p env job jobDir inputPath opts now).completedAt = some now ∧
    (processJobModel p env job jobDir inputPath opts now).errorMessage = e ∧
    (processJobModel p env job jobDir inputPath opts now).errorMessage ≠ "" ∧
    (processJobModel p env job jobDir inputPath opts now).chunks = res.chunks ∧
    (processJobModel p env job jobDir inputPath opts now).chunks = [] := by
  obtain ⟨hne, hchunks⟩ := process_error p env jobDir inputPath opts res e h
  simp [processJobModel, h, hne, hchunks]

/-- C3: a successful pipeline run over the discovered chunk files
returns one chunk per file; the sorted file list is lexicographically
ordered, and the chunk at position `i` has index `i`, start offset
`i × requested chunk duration`, and the `i`-th sorted file's audio
path. -/
theorem process_chunk_sequence (p : Processor) (env : Env) (jobDir inputPath : String)
    (opts : Options) (res : ProcResult) (files : List String)
    (hglob : env.globResult = .ok files)
    (h : process p env jobDir inputPath opts = (res, none)) :
    res.chunks.length = files.length ∧
    List.Sorted (fun a b : String => a ≤ b)
      (List.insertionSort (fun a b : String => a ≤ b) files) ∧
    ∀ i, i < res.chunks.length →
      (res.chunks.getD i dummyChunk).index = (i : Int) ∧
      (res.chunks.getD i dummyChunk).startSeconds =
        (((i : Int) * opts.chunkDurationSeconds : Int) : ℚ) ∧
      (res.chunks.getD i dummyChunk).audioFile =
        pathJoin "chunks"
          (baseName ((List.insertionSort (fun a b : String => a ≤ b) files).getD i "")) := by
  rw [process] at h
  cases hlp : env.lookPathErr with
  | some e2 => simp only [hlp] at h; exact absurd (congrArg Prod.snd h) (by simp)
  | none =>
  simp only [hlp] at h
  cases hmk : env.mkdirErr with
  | some e2 => simp only [hmk] at h; exact absurd (congrArg Prod.snd h) (by simp)
  | none =>
  simp only [hmk] at h
  cases hff : env.ffmpegExitErr with
  | some e2 => simp only [hff] at h; exact absurd (congrArg Prod.snd h) (by simp)
  | none =>
  simp only [hff, hglob] at h
  by_cases hlen : (List.insertionSort (fun a b : String => a ≤ b) files).length = 0
  · rw [if_pos hlen] at h
    exact absurd (congrArg Prod.snd h) (by simp)
  · rw [if_neg hlen] at h
    obtain ⟨h1, _, h3⟩ := processChunks_ok p env jobDir opts _ _ 0 _ res h
    simp only [List.length_nil, List.length_insertionSort, Nat.zero_add] at h1 h3
    refine ⟨h1, List.sorted_insertionSort _ files, fun i hi => ?_⟩
    have hi2 : i < files.length := by omega
    obtain ⟨g1, g2, g3⟩ := h3 i (by simpa using hi2)
    exact ⟨by simpa using g1, by simpa using g2, by simpa using g3⟩

/-- The invariant of C4 on one job record: `completedAt` is set exactly
in the terminal states and `errorMessage` is non-empty only in
`failed`. -/
def jobInv (j : Job) : Prop :=
  (j.completedAt ≠ none ↔ (j.status = .completed ∨ j.status = .failed)) ∧
  (j.errorMessage ≠ "" → j.status = .failed)

/-- C4: every record the coordinator creates or persists — the pending
record built by the upload handler, the processing record persisted
before pipeline work, and the terminal record persisted after the
pipeline returns — satisfies the completion/error invariant. -/
theorem coordinator_invariant (jobID fileName : String) (createdAt chunkDuration : Int)
    (transcribe : Bool) (p : Processor) (env : Env) (jobDir inputPath : String)
    (opts : Options) (now : Int) :
    jobInv (mkPendingJob jobID fileName createdAt chunkDuration transcribe) ∧
    jobInv (toProcessing (mkPendingJob jobID fileName createdAt chunkDuration transcribe)) ∧
    jobInv (processJobModel p env (mkPendingJob jobID fileName createdAt chunkDuration transcribe)
      jobDir inputPath opts now) := by
  refine ⟨⟨by simp [mkPendingJob], by simp [mkPendingJob]⟩,
    ⟨by simp [toProcessing, mkPendingJob], by simp [toProcessing]⟩, ?_⟩
  rcases hp : process p env jobDir inputPath opts with ⟨res, err⟩
  cases err with
  | none => exact ⟨by simp [processJobModel, hp], by simp [processJobModel, hp]⟩
  | some e => exact ⟨by simp [processJobModel, hp], by simp [processJobModel, hp]⟩

/-- C8 (amended): the pipeline result carries exactly one captured
combined-output entry per external invocation made, and the persisted
processing log is those entries joined by the fixed delimiter — followed
by the error text as one additional final entry when the run failed. -/
theorem processJob_log_entries (p : Processor) (env : Env) (job : Job)
    (jobDir inputPath : String) (opts : Options) (now : Int) :
    (process p env jobDir inputPath opts).1.logs.length =
      (process p env jobDir inputPath opts).1.invocations.length ∧
    (processJobModel p env job jobDir inputPath opts now).processingLog =
      String.intercalate logDelim
        ((process p env jobDir inputPath opts).1.logs ++
          (match (process p env jobDir inputPath opts).2 with
            | some e => [e]
            | none => [])) := by
  refine ⟨process_balance p env jobDir inputPath opts, ?_⟩
  rcases hp : process p env jobDir inputPath opts with ⟨res, err⟩
  cases err <;> simp [processJobModel, hp]

/-! ### Concrete runs -/

/-- Processor configuration with defaults: ffmpeg from the path, no
transcription binary. -/
def procPlain : Processor := ⟨"", "", []⟩

/-- Five-second chunks, no base64, no transcription. -/
def optsPlain : Options := ⟨5, false, false⟩

/-- A run observing one valid chunk file. -/
def envOne : Env :=
  { lookPathErr := none
    mkdirErr := none
    ffmpegLog := "ffmpeg run"
    ffmpegExitErr := none
    globResult := .ok ["jd/chunks/chunk_000.wav"]
    cancelled := fun _ => false
    fileBytes := fun _ => some (mkWav 1 16000 16 32000)
    base64WriteErr := fun _ => none
    whisperLog := fun _ => ""
    whisperExitErr := fun _ => none
    readFileResult := fun _ => .error "no transcript" }

/-- A run observing two chunk files, the second of which is truncated
(zero bytes), so its duration measurement fails. -/
def envTwo : Env :=
  { lookPathErr := none
    mkdirErr := none
    ffmpegLog := "ffmpeg run"
    ffmpegExitErr := none
    globResult := .ok ["jd/chunks/chunk_000.wav", "jd/chunks/chunk_001.wav"]
    cancelled := fun _ => false
    fileBytes := fun path =>
      if path = "jd/chunks/chunk_001.wav" then some [] else some (mkWav 1 16000 16 32000)
    base64WriteErr := fun _ => none
    whisperLog := fun _ => ""
    whisperExitErr := fun _ => none
    readFileResult := fun _ => .error "no transcript" }

/-- A run in which the transcoder binary is not resolvable: the pipeline
fails before any external invocation is made. -/
def envNoFfmpeg : Env :=
  { lookPathErr := some "executable file not found in PATH"
    mkdirErr := none
    ffmpegLog := ""
    ffmpegExitErr := none
    globResult := .ok []
    cancelled := fun _ => false
    fileBytes := fun _ => none
    base64WriteErr := fun _ => none
    whisperLog := fun _ => ""
    whisperExitErr := fun _ => none
    readFileResult := fun _ => .error "no transcript" }

/-- A freshly uploaded pending job. -/
def jobZero : Job := mkPendingJob "job-1" "clip.mp4" 0 5 false

/-- The one-second mono file measures as exactly one second. -/
theorem wav_mono : wavDuration (mkWav 1 16000 16 32000) = .ok 1 := by
  rw [wav_mkWav_finish]
  norm_num [finishDuration, floatDivQ, raw16, raw32]

theorem envOne_wav (path : String) : wavDurationFile envOne path = .ok 1 := by
  show wavDuration (mkWav 1 16000 16 32000) = .ok 1
  exact wav_mono

/-- The single-file run succeeds with one chunk of duration 1. -/
theorem process_envOne :
    process procPlain envOne "jd" "in.mp4" optsPlain =
      (⟨[⟨0, 0, 1, "chunks/chunk_000.wav", "", "", ""⟩], ["ffmpeg run"],
        [("ffmpeg", ffmpegArgs "in.mp4" 5 "jd/chunks/chunk_%03d.wav")]⟩, none) := by
  have h0 : process procPlain envOne "jd" "in.mp4" optsPlain =
      processChunks procPlain envOne "jd" optsPlain false ["jd/chunks/chunk_000.wav"] 0
        ⟨[], ["ffmpeg run"], [("ffmpeg", ffmpegArgs "in.mp4" 5 "jd/chunks/chunk_%03d.wav")]⟩ := rfl
  rw [h0, processChunks]
  simp only [envOne_wav]
  rw [processChunks]
  decide

/-- Unfolding of `process` down to the chunk loop on a run whose
pre-loop steps all succeed. -/
theorem process_run (p : Processor) (env : Env) (jobDir inputPath : String) (opts : Options)
    (files sorted : List String)
    (hlp : env.lookPathErr = none) (hmk : env.mkdirErr = none) (hff : env.ffmpegExitErr = none)
    (hgl : env.globResult = .ok files)
    (hsort : List.insertionSort (fun a b : String => a ≤ b) files = sorted)
    (hne : ¬sorted.length = 0) :
    process p env jobDir inputPath opts =
      processChunks p env jobDir opts (opts.transcribe && !(p.whisperBin = "")) sorted 0
        ⟨[], [env.ffmpegLog], [(if p.ffmpegBin = "" then "ffmpeg" else p.ffmpegBin,
          ffmpegArgs inputPath opts.chunkDurationSeconds
            (pathJoin (pathJoin jobDir "chunks") "chunk_%03d.wav"))]⟩ := by
  rw [process]
  simp only [hlp, hmk, hff, hgl, hsort]
  rw [if_neg hne]

/-- The two-file run fails at the second chunk and returns no chunks. -/
theorem process_envTwo :
    process procPlain envTwo "jd" "in.mp4" optsPlain =
      (⟨[], ["ffmpeg run"], [("ffmpeg", ffmpegArgs "in.mp4" 5 "jd/chunks/chunk_%03d.wav")]⟩,
        some "determining chunk duration: unexpected EOF") := by
  have hsort : List.insertionSort (fun a b : String => a ≤ b)
      ["jd/chunks/chunk_000.wav", "jd/chunks/chunk_001.wav"] =
      ["jd/chunks/chunk_000.wav", "jd/chunks/chunk_001.wav"] := by
    rw [List.insertionSort, List.insertionSort, List.insertionSort, List.orderedInsert,
      List.orderedInsert, if_pos (by rw [String.le_iff_toList_le]; decide)]
  have h0 := process_run procPlain envTwo "jd" "in.mp4" optsPlain
    ["jd/chunks/chunk_000.wav", "jd/chunks/chunk_001.wav"]
    ["jd/chunks/chunk_000.wav", "jd/chunks/chunk_001.wav"]
    rfl rfl rfl rfl hsort (by decide)
  have hw0 : wavDurationFile envTwo "jd/chunks/chunk_000.wav" = .ok 1 := by
    show wavDuration (mkWav 1 16000 16 32000) = .ok 1
    exact wav_mono
  rw [h0, processChunks]
  simp only [hw0]
  decide

/-- C1 witness: a failing two-file run yields a failed job with a set
completion timestamp, a non-empty error message and no chunks. -/
theorem processJob_failure_witness :
    (processJobModel procPlain envTwo jobZero "jd" "in.mp4" optsPlain 7).status = .failed ∧
    (processJobModel procPlain envTwo jobZero "jd" "in.mp4" optsPlain 7).completedAt = some 7 ∧
    (processJobModel procPlain envTwo jobZero "jd" "in.mp4" optsPlain 7).errorMessage ≠ "" ∧
    (processJobModel procPlain envTwo jobZero "jd" "in.mp4" optsPlain 7).chunks = [] := by
  obtain ⟨h1, h2, _, h4, _, h6⟩ := processJob_failure procPlain envTwo jobZero "jd" "in.mp4"
    optsPlain 7 _ _ process_envTwo
  exact ⟨h1, h2, h4, h6⟩

/-- C1 counterexample: in the two-file run the first chunk is fully and
successfully processed (its duration measures as 1 second and neither
base64 nor transcription is requested) before the second chunk's
duration measurement fails, yet the persisted chunk sequence of the
failed job is empty: the successfully processed chunk is not retained,
contradicting the claim. -/
theorem processJob_failure_cex :
    wavDurationFile envTwo "jd/chunks/chunk_000.wav" = .ok 1 ∧
    (processJobModel procPlain envTwo jobZero "jd" "in.mp4" optsPlain 7).status = .failed ∧
    (processJobModel procPlain envTwo jobZero "jd" "in.mp4" optsPlain 7).errorMessage =
      "determining chunk duration: unexpected EOF" ∧
    (processJobModel procPlain envTwo jobZero "jd" "in.mp4" optsPlain 7).chunks = [] := by
  refine ⟨?_, ?_, ?_, ?_⟩
  · show wavDuration (mkWav 1 16000 16 32000) = .ok 1
    exact wav_mono
  · simp [processJobModel, process_envTwo]
  · simp [processJobModel, process_envTwo]
  · simp [processJobModel, process_envTwo]

/-- C3 witness: the successful single-file run yields one chunk with
index 0, start offset 0 and the sorted file's audio path. -/
theorem process_chunk_sequence_witness :
    (process procPlain envOne "jd" "in.mp4" optsPlain).1.chunks.length = 1 ∧
    ((process procPlain envOne "jd" "in.mp4" optsPlain).1.chunks.getD 0 dummyChunk).index = 0 ∧
    ((process procPlain envOne "jd" "in.mp4" optsPlain).1.chunks.getD 0 dummyChunk).startSeconds
      = 0 ∧
    ((process procPlain envOne "jd" "in.mp4" optsPlain).1.chunks.getD 0 dummyChunk).audioFile =
      "chunks/chunk_000.wav" := by
  have hp : process procPlain envOne "jd" "in.mp4" optsPlain =
      ((process procPlain envOne "jd" "in.mp4" optsPlain).1, none) := by
    rw [process_envOne]
  obtain ⟨h1, _, h3⟩ := process_chunk_sequence procPlain envOne "jd" "in.mp4" optsPlain _
    ["jd/chunks/chunk_000.wav"] rfl hp
  obtain ⟨g1, g2, g3⟩ := h3 0 (by rw [h1]; decide)
  refine ⟨by simpa using h1, by simpa using g1, ?_, ?_⟩
  · rw [g2]
    norm_num
  · rw [g3]
    decide

/-- C4 witness: the invariant holds on the concrete pending record and
on the persisted terminal record of the single-file run. -/
theorem coordinator_invariant_witness :
    jobInv (mkPendingJob "job-1" "clip.mp4" 0 5 false) ∧
    jobInv (processJobModel procPlain envOne (mkPendingJob "job-1" "clip.mp4" 0 5 false)
      "jd" "in.mp4" optsPlain 7) := by
  obtain ⟨h1, _, h3⟩ := coordinator_invariant "job-1" "clip.mp4" 0 5 false procPlain envOne
    "jd" "in.mp4" optsPlain 7
  exact ⟨h1, h3⟩

/-- C8 witness: in the single-file run the result carries one log entry
per recorded invocation. -/
theorem processJob_log_entries_witness :
    (process procPlain envOne "jd" "in.mp4" optsPlain).1.logs.length =
      (process procPlain envOne "jd" "in.mp4" optsPlain).1.invocations.length :=
  (processJob_log_entries procPlain envOne jobZero "jd" "in.mp4" optsPlain 7).1

/-- C8 counterexample: when the transcoder binary cannot be resolved, no
external invocation is made, yet the persisted processing log is not
empty — it consists of the error text, so the log is not the
concatenation of exactly one entry per invocation made with no other
entries. -/
theorem processJob_log_entries_cex :
    (process procPlain envNoFfmpeg "jd" "in.mp4" optsPlain).1.invocations = [] ∧
    (processJobModel procPlain envNoFfmpeg jobZero "jd" "in.mp4" optsPlain 7).processingLog =
      "ffmpeg binary not found: executable file not found in PATH" ∧
    (processJobModel procPlain envNoFfmpeg jobZero "jd" "in.mp4" optsPlain 7).processingLog
      ≠ "" := by
  refine ⟨rfl, by decide, by decide⟩

/-! ### Job record store (storage.go) -/

/-- The JSON values `encoding/json` produces for job records. -/
inductive Json where
  | null
  | bool (b : Bool)
  | num (q : ℚ)
  | str (s : String)
  | arr (elems : List Json)
  | obj (fields : List (String × Json))

/-- The serialized form of a `JobStatus`. -/
def statusToString : JobStatus → String
  | .pending => "pending"
  | .processing => "processing"
  | .completed => "completed"
  | .failed => "failed"

/-- Deserialization of a `JobStatus` value (the store treats anything
outside the closed enum as corrupt). -/
def statusOfString (s : String) : Option JobStatus :=
  if s = "pending" then some .pending
  else if s = "processing" then some .processing
  else if s = "completed" then some .completed
  else if s = "failed" then some .failed
  else none

/-- Field lookup in a JSON object. -/
def getField : List (String × Json) → String → Option Json
  | [], _ => none
  | (k, v) :: rest, key => if k = key then some v else getField rest key

/-- Unmarshalling a string field: absent or null leaves the zero
value. -/
def decStr : Option Json → Option String
  | none => some ""
  | some .null => some ""
  | some (.str s) => some s
  | some _ => none

/-- Unmarshalling an integer field. -/
def decInt : Option Json → Option Int
  | none => some 0
  | some .null => some 0
  | some (.num q) => if q.den = 1 then some q.num else none
  | some _ => none

/-- Unmarshalling a float field. -/
def decQ : Option Json → Option ℚ
  | none => some 0
  | some .null => some 0
  | some (.num q) => some q
  | some _ => none

/-- Unmarshalling a boolean field. -/
def decBool : Option Json → Option Bool
  | none => some false
  | some .null => some false
  | some (.bool b) => some b
  | some _ => none

/-- Unmarshalling the optional completion timestamp. -/
def decOptInt : Option Json → Option (Option Int)
  | none => some none
  | some .null => some none
  | some (.num q) => if q.den = 1 then some (some q.num) else none
  | some _ => none

/-- Unmarshalling the status field. -/
def decStatus : Option Json → Option JobStatus
  | some (.str s) => statusOfString s
  | _ => none

/-- Marshalling one chunk, with `omitempty` on the base64, transcript
and preview fields. -/
def encodeChunk (c : Chunk) : Json :=
  .obj ([("index", .num (c.index : ℚ)), ("startSeconds", .num c.startSeconds),
    ("durationSeconds", .num c.durationSeconds), ("audioFile", .str c.audioFile)]
    ++ (if c.base64File = "" then [] else [("base64File", .str c.base64File)])
    ++ (if c.transcriptFile = "" then [] else [("transcriptFile", .str c.transcriptFile)])
    ++ (if c.transcriptPreview = "" then []
        else [("transcriptPreview", .str c.transcriptPreview)]))

/-- Unmarshalling one chunk. -/
def decodeChunk (v : Json) : Option Chunk :=
  match v with
  | .obj fs => do
    let index ← decInt (getField fs "index")
    let ss ← decQ (getField fs "startSeconds")
    let ds ← decQ (getField fs "durationSeconds")
    let af ← decStr (getField fs "audioFile")
    let b64 ← decStr (getField fs "base64File")
    let tf ← decStr (getField fs "transcriptFile")
    let tp ← decStr (getField fs "transcriptPreview")
    some ⟨index, ss, ds, af, b64, tf, tp⟩
  | _ => none

/-- Unmarshalling a JSON array of chunks element by element. -/
def decodeChunkList : List Json → Option (List Chunk)
  | [] => some []
  | v :: rest => do
    let c ← decodeChunk v
    let cs ← decodeChunkList rest
    some (c :: cs)

/-- Unmarshalling the chunk slice (a nil slice marshals to null). -/
def decChunks : Option Json → Option (List Chunk)
  | none => some []
  | some .null => some []
  | some (.arr xs) => decodeChunkList xs
  | some _ => none

/-- Marshalling a job record, with `omitempty` on the completion
timestamp, error message and processing log. -/
def encodeJob (j : Job) : Json :=
  .obj ([("id", .str j.id), ("originalFileName", .str j.originalFileName),
    ("originalVideoPath", .str j.originalVideoPath), ("createdAt", .num (j.createdAt : ℚ))]
    ++ (match j.completedAt with
        | none => []
        | some t => [("completedAt", .num (t : ℚ))])
    ++ [("chunkDurationSeconds", .num (j.chunkDurationSeconds : ℚ)),
        ("transcriptionRequested", .bool j.transcriptionRequested),
        ("status", .str (statusToString j.status))]
    ++ (if j.errorMessage = "" then [] else [("errorMessage", .str j.errorMessage)])
    ++ [("chunks", .arr (j.chunks.map encodeChunk))]
    ++ (if j.processingLog = "" then [] else [("processingLog", .str j.processingLog)]))

/-- Unmarshalling a job record. -/
def decodeJob (v : Json) : Option Job :=
  match v with
  | .obj fs => do
    let id ← decStr (getField fs "id")
    let ofn ← decStr (getField fs "originalFileName")
    let ovp ← decStr (getField fs "originalVideoPath")
    let ca ← decInt (getField fs "createdAt")
    let compAt ← decOptInt (getField fs "completedAt")
    let cd ← decInt (getField fs "chunkDurationSeconds")
    let tr ← decBool (getField fs "transcriptionRequested")
    let status ← decStatus (getField fs "status")
    let em ← decStr (getField fs "errorMessage")
    let chunks ← decChunks (getField fs "chunks")
    let pl ← decStr (getField fs "processingLog")
    some ⟨id, ofn, ovp, ca, compAt, cd, tr, status, em, chunks, pl⟩
  | _ => none

theorem statusOfString_statusToString (st : JobStatus) :
    statusOfString (statusToString st) = some st := by
  cases st <;> rfl

theorem decodeChunk_encodeChunk (c : Chunk) : decodeChunk (encodeChunk c) = some c := by
  obtain ⟨i, ss, ds, af, b64, tf, tp⟩ := c
  by_cases h1 : b64 = "" <;> by_cases h2 : tf = "" <;> by_cases h3 : tp = "" <;>
    simp [encodeChunk, decodeChunk, getField, decInt, decQ, decStr, h1, h2, h3]

theorem decChunks_map (l : List Chunk) :
    decChunks (some (.arr (l.map encodeChunk))) = some l := by
  induction l with
  | nil => rfl
  | cons c rest ih =>
    simp only [decChunks] at ih ⊢
    simp [decodeChunkList, decodeChunk_encodeChunk, ih]

theorem decodeJob_encodeJob (j : Job) : decodeJob (encodeJob j) = some j := by
  obtain ⟨id, ofn, ovp, ca, compAt, cd, tr, status, em, chunks, pl⟩ := j
  have hch : decodeChunkList (List.map encodeChunk chunks) = some chunks :=
    decChunks_map chunks
  cases compAt with
  | none =>
    by_cases h1 : em = "" <;> by_cases h2 : pl = "" <;>
      simp [encodeJob, decodeJob, getField, decInt, decQ, decStr, decBool, decOptInt,
        decStatus, statusOfString_statusToString, decChunks, hch, h1, h2]
  | some t =>
    by_cases h1 : em = "" <;> by_cases h2 : pl = "" <;>
      simp [encodeJob, decodeJob, getField, decInt, decQ, decStr, decBool, decOptInt,
        decStatus, statusOfString_statusToString, decChunks, hch, h1, h2]

/-- The observed file system: a map from paths to JSON file contents. -/
def FS : Type := String → Option Json

/-- `os.WriteFile`. -/
def fsWrite (fs : FS) (path : String) (v : Json) : FS :=
  fun p => if p = path then some v else fs p

/-- `os.Rename`: the destination now holds the source's content and the
source is gone. -/
def fsRename (fs : FS) (src dst : String) : FS :=
  fun p => if p = dst then fs src else if p = src then none else fs p

/-- `SaveJob`: marshal the job, write it to `job.json.tmp` in the job
directory, and atomically rename it over `job.json`. -/
def SaveJob (fs : FS) (jobDir : String) (job : Job) : FS :=
  fsRename (fsWrite fs (jobDir ++ "/job.json.tmp") (encodeJob job))
    (jobDir ++ "/job.json.tmp") (jobDir ++ "/job.json")

/-- `LoadJob`: read `job.json` and unmarshal it. -/
def LoadJob (fs : FS) (jobDir : String) : Except String Job :=
  match fs (jobDir ++ "/job.json") with
  | none => .error "reading job file"
  | some v =>
    match decodeJob v with
    | none => .error "unmarshalling job file"
    | some j => .ok j

/-- C5: saving any job into a job directory and loading from the same
directory yields a job equal to the original in every field. -/
theorem saveJob_loadJob (fs : FS) (jobDir : String) (job : Job) :
    LoadJob (SaveJob fs jobDir job) jobDir = .ok job := by
  unfold LoadJob SaveJob fsRename fsWrite
  simp [decodeJob_encodeJob]

/-- C5 witness: the round-trip on a concrete store and job. -/
theorem saveJob_loadJob_witness :
    LoadJob (SaveJob (fun _ => none) "data/jobs/job-1" jobZero) "data/jobs/job-1" =
      .ok jobZero :=
  saveJob_loadJob (fun _ => none) "data/jobs/job-1" jobZero

/-- One entry of the jobs root as `os.ReadDir` and `LoadJob` observe it:
its name, whether it is a directory, and the contents of its `job.json`
if that file exists. -/
structure DirEntry where
  name : String
  isDir : Bool
  jobFile : Option Json

/-- `LoadJob` applied to one entry: missing file or failed unmarshal
means no job. -/
def loadDirEntry (e : DirEntry) : Option Job :=
  match e.jobFile with
  | none => none
  | some v => decodeJob v

/-- The ordering `ListJobs` sorts by: newest creation timestamp
first. -/
def jobOrder (a b : Job) : Prop := b.createdAt ≤ a.createdAt

instance : DecidableRel jobOrder := fun a b => Int.decLe b.createdAt a.createdAt

instance : IsTotal Job jobOrder := ⟨fun a b => le_total b.createdAt a.createdAt⟩

instance : IsTrans Job jobOrder := ⟨fun _ _ _ h1 h2 => le_trans h2 h1⟩

/-- `ListJobs`: a missing jobs root yields an empty result and no
error; otherwise every immediate subdirectory that loads as a job is
collected and the result is sorted newest first. -/
def ListJobs (root : Option (List DirEntry)) : Except String (List Job) :=
  match root with
  | none => .ok []
  | some entries =>
    .ok (List.insertionSort jobOrder
      (entries.filterMap (fun e => if e.isDir then loadDirEntry e else none)))

/-- C6: a missing jobs root yields `ok []`; with any root contents the
listing never fails, is ordered by creation timestamp descending, and
contains exactly the jobs of those directory entries that load
successfully — entries that are not directories or fail to load are
silently skipped. -/
theorem listJobs_spec :
    ListJobs none = .ok [] ∧
    ∀ entries : List DirEntry,
      ∃ jobs : List Job,
        ListJobs (some entries) = .ok jobs ∧
        List.Sorted jobOrder jobs ∧
        ∀ j : Job, j ∈ jobs ↔ ∃ e, e ∈ entries ∧ e.isDir = true ∧ loadDirEntry e = some j := by
  refine ⟨rfl, fun entries => ⟨_, rfl, List.sorted_insertionSort _ _, fun j => ?_⟩⟩
  rw [List.mem_insertionSort, List.mem_filterMap]
  constructor
  · rintro ⟨e, he, hload⟩
    by_cases hd : e.isDir
    · rw [if_pos hd] at hload
      exact ⟨e, he, hd, hload⟩
    · rw [if_neg hd] at hload
      exact absurd hload (by simp)
  · rintro ⟨e, he, hd, hload⟩
    exact ⟨e, he, by rw [if_pos hd]; exact hload⟩

/-- C6 witness: the missing-root case, and a root holding one non-job
entry (a directory with no readable job file), which is silently
excluded. -/
theorem listJobs_spec_witness :
    ListJobs none = .ok [] ∧
    (∃ jobs : List Job,
      ListJobs (some [⟨"junk", true, none⟩]) = .ok jobs ∧
      List.Sorted jobOrder jobs ∧
      ∀ j : Job, j ∈ jobs ↔ ∃ e, e ∈ [(⟨"junk", true, none⟩ : DirEntry)] ∧ e.isDir = true ∧
        loadDirEntry e = some j) :=
  ⟨listJobs_spec.1, listJobs_spec.2 [⟨"junk", true, none⟩]⟩

/-! ### Deletion handler (main.go, `handleJobDelete`) -/

/-- The observable outcome of a deletion request. -/
inductive DeleteOutcome where
  | methodNotAllowed
  | busy
  | deleted
deriving DecidableEq, Repr

/-- The server state the deletion handler touches: the in-flight
registry and the data file system. -/
structure ServerState where
  jobsInFlight : List String
  fs : FS

/-- `handleJobDelete`: reject non-POST requests, refuse with `Busy`
while the job is in the in-flight registry, and otherwise remove the
job directory (`os.RemoveAll`, which removes the directory and
everything under it). -/
def handleJobDelete (st : ServerState) (method jobID jobsDir : String) :
    ServerState × DeleteOutcome :=
  if ¬method = "POST" then (st, .methodNotAllowed)
  else if jobID ∈ st.jobsInFlight then (st, .busy)
  else
    ({ st with fs := fun p =>
        if p = jobsDir ++ "/" ++ jobID ∨ (jobsDir ++ "/" ++ jobID ++ "/").isPrefixOf p then
          none
        else st.fs p }, .deleted)

/-- C9: a deletion request for a job whose ID is in the in-flight
registry returns `Busy` and leaves the server state — in particular
every file of the job directory — untouched. -/
theorem handleJobDelete_busy (st : ServerState) (jobID jobsDir : String)
    (h : jobID ∈ st.jobsInFlight) :
    handleJobDelete st "POST" jobID jobsDir = (st, .busy) := by
  rw [handleJobDelete, if_neg (by simp), if_pos h]

/-- C9 witness: a concrete in-flight job refuses deletion with `Busy`
and an unchanged state. -/
theorem handleJobDelete_busy_witness :
    handleJobDelete ⟨["job-1"], fun _ => none⟩ "POST" "job-1" "data/jobs" =
      (⟨["job-1"], fun _ => none⟩, .busy) :=
  handleJobDelete_busy ⟨["job-1"], fun _ => none⟩ "job-1" "data/jobs" (by simp)
